import Mathlib

/-!
Verification of the PM2.5 classifier and exposure aggregator of the
IoT indoor-air-quality backend (`backend/main.py`).

The embedding models Python floats as exact rationals (`ℚ`), Python's
`None` as `Option`, Python's built-in `round` (round-half-to-even) as
`pythonRound`, and the module-level list `PM25_BP` as a `List Band`.
-/

namespace IAQ

/-- Python's built-in `round` on a real value with no `ndigits` argument:
round to the nearest integer, ties going to the even integer. -/
def pythonRound (x : ℚ) : ℤ :=
  let f := ⌊x⌋
  let r := x - (f : ℚ)
  if r < 1/2 then f
  else if 1/2 < r then f + 1
  else if f % 2 = 0 then f else f + 1

/-- One row of the `PM25_BP` breakpoint table:
`(Blo, Bhi, Ilo, Ihi, category, color)`. -/
structure Band where
  lo : ℚ
  hi : ℚ
  ilo : ℚ
  ihi : ℚ
  cat : String
  color : String
deriving DecidableEq, Repr

/-- The CPCB NAQI breakpoint table for PM2.5 (`PM25_BP` in `backend/main.py`). -/
def PM25_BP : List Band :=
  [ ⟨0, 30, 0, 50, "Good", "#009865"⟩,
    ⟨31, 60, 51, 100, "Satisfactory", "#98CE00"⟩,
    ⟨61, 90, 101, 200, "Moderately Polluted", "#FFFF00"⟩,
    ⟨91, 120, 201, 300, "Poor", "#FF7E00"⟩,
    ⟨121, 250, 301, 400, "Very Poor", "#FF0000"⟩,
    ⟨251, 350, 401, 500, "Severe", "#7E0023"⟩ ]

/-- The six category labels in severity order (the table order of `PM25_BP`). -/
def CATS : List String :=
  ["Good", "Satisfactory", "Moderately Polluted", "Poor", "Very Poor", "Severe"]

/-- Severity rank of a category label: its position in `CATS`
(6 for an unknown label). -/
def rank (c : String) : ℕ :=
  CATS.findIdx (fun c2 => c2 == c)

/-- The band-membership test `Blo <= v <= Bhi` used by the scan loop. -/
def bandHas (v : ℚ) (b : Band) : Bool :=
  decide (b.lo ≤ v) && decide (v ≤ b.hi)

/-- Translation of `sub_index_pm25` from `backend/main.py`: scan `PM25_BP` for the first
band containing `v` and linearly interpolate; on fall-through use the last
band, anchor the line at `Ihi`, and clamp at `Ihi`.  `None` maps to
`(None, None)`. -/
def sub_index_pm25 (v? : Option ℚ) : Option ℤ × Option String :=
  match v? with
  | none => (none, none)
  | some v =>
    match PM25_BP.find? (bandHas v) with
    | some b =>
      (some (pythonRound ((b.ihi - b.ilo) / (b.hi - b.lo) * (v - b.lo) + b.ilo)),
       some b.cat)
    | none =>
      let b := PM25_BP.getLastD ⟨0, 0, 0, 0, "", ""⟩
      let I := (b.ihi - b.ilo) / (b.hi - b.lo) * (v - b.lo) + b.ihi
      (some (pythonRound (max I b.ihi)), some b.cat)

/-- Index reported for a present concentration `v` (0 when the pair is
absent, which never happens for a present input). -/
def idxQ (v : ℚ) : ℤ :=
  ((sub_index_pm25 (some v)).1).getD 0

/-- Category reported for a present concentration `v`. -/
def catQ (v : ℚ) : String :=
  ((sub_index_pm25 (some v)).2).getD ""

section Lemmas

lemma bandHas_iff {v : ℚ} {b : Band} : bandHas v b = true ↔ b.lo ≤ v ∧ v ≤ b.hi := by
  simp [bandHas]

lemma pythonRound_intCast (n : ℤ) : pythonRound (n : ℚ) = n := by
  have hf : ⌊(n : ℚ)⌋ = n := Int.floor_intCast n
  simp only [pythonRound, hf]
  norm_num

lemma floor_le_pythonRound (x : ℚ) : ⌊x⌋ ≤ pythonRound x := by
  simp only [pythonRound]
  split_ifs <;> omega

lemma pythonRound_le_floor_add_one (x : ℚ) : pythonRound x ≤ ⌊x⌋ + 1 := by
  simp only [pythonRound]
  split_ifs <;> omega

lemma pythonRound_mono {x y : ℚ} (h : x ≤ y) : pythonRound x ≤ pythonRound y := by
  rcases lt_or_eq_of_le (Int.floor_le_floor h) with hf | hf
  · calc pythonRound x ≤ ⌊x⌋ + 1 := pythonRound_le_floor_add_one x
      _ ≤ ⌊y⌋ := by omega
      _ ≤ pythonRound y := floor_le_pythonRound y
  · have hx : x - (⌊x⌋ : ℚ) ≤ y - (⌊y⌋ : ℚ) := by
      rw [← hf]; linarith
    simp only [pythonRound, ← hf]
    split_ifs <;> first | omega | linarith

lemma le_pythonRound_of_le {n : ℤ} {x : ℚ} (h : (n : ℚ) ≤ x) : n ≤ pythonRound x := by
  calc n = pythonRound (n : ℚ) := (pythonRound_intCast n).symm
    _ ≤ pythonRound x := pythonRound_mono h

lemma pythonRound_le_of_le {n : ℤ} {x : ℚ} (h : x ≤ (n : ℚ)) : pythonRound x ≤ n := by
  calc pythonRound x ≤ pythonRound (n : ℚ) := pythonRound_mono h
    _ = n := pythonRound_intCast n

/-- The linear interpolation used inside a band. -/
def interp (b : Band) (v : ℚ) : ℚ :=
  (b.ihi - b.ilo) / (b.hi - b.lo) * (v - b.lo) + b.ilo

lemma interp_mono {b : Band} (hlt : b.lo < b.hi) (hi : b.ilo ≤ b.ihi)
    {v w : ℚ} (hvw : v ≤ w) : interp b v ≤ interp b w := by
  have hs : 0 ≤ (b.ihi - b.ilo) / (b.hi - b.lo) :=
    div_nonneg (by linarith) (by linarith)
  have := mul_le_mul_of_nonneg_left (sub_le_sub_right hvw b.lo) hs
  simpa [interp] using this

lemma interp_lower {b : Band} (hlt : b.lo < b.hi) (hi : b.ilo ≤ b.ihi)
    {v : ℚ} (hv : b.lo ≤ v) : b.ilo ≤ interp b v := by
  have hs : 0 ≤ (b.ihi - b.ilo) / (b.hi - b.lo) :=
    div_nonneg (by linarith) (by linarith)
  have := mul_nonneg hs (by linarith : (0:ℚ) ≤ v - b.lo)
  simp only [interp]
  linarith

lemma interp_upper {b : Band} (hlt : b.lo < b.hi) (hi : b.ilo ≤ b.ihi)
    {v : ℚ} (hv : v ≤ b.hi) : interp b v ≤ b.ihi := by
  have hs : 0 ≤ (b.ihi - b.ilo) / (b.hi - b.lo) :=
    div_nonneg (by linarith) (by linarith)
  have h1 : (b.ihi - b.ilo) / (b.hi - b.lo) * (v - b.lo)
      ≤ (b.ihi - b.ilo) / (b.hi - b.lo) * (b.hi - b.lo) :=
    mul_le_mul_of_nonneg_left (by linarith) hs
  have h2 : (b.ihi - b.ilo) / (b.hi - b.lo) * (b.hi - b.lo) = b.ihi - b.ilo :=
    div_mul_cancel₀ _ (by linarith)
  simp only [interp]
  linarith

/-- In-band case of `sub_index_pm25`: the scan finds the (unique, hence
first) band containing `v` and interpolates. -/
lemma subIndex_in_band {v : ℚ} {b : Band} (hb : b ∈ PM25_BP)
    (hlo : b.lo ≤ v) (hhi : v ≤ b.hi) :
    sub_index_pm25 (some v) = (some (pythonRound (interp b v)), some b.cat) := by
  simp only [PM25_BP, List.mem_cons, List.not_mem_nil, or_false] at hb
  rcases hb with rfl | rfl | rfl | rfl | rfl | rfl <;> norm_num at hlo hhi
  · simp [sub_index_pm25, PM25_BP, List.find?, bandHas, interp, hlo, hhi]
  · have n1 : ¬ (v ≤ 30) := by linarith
    simp [sub_index_pm25, PM25_BP, List.find?, bandHas, interp, hlo, hhi, n1]
  · have n1 : ¬ (v ≤ 30) := by linarith
    have n2 : ¬ (v ≤ 60) := by linarith
    simp [sub_index_pm25, PM25_BP, List.find?, bandHas, interp, hlo, hhi, n1, n2]
  · have n1 : ¬ (v ≤ 30) := by linarith
    have n2 : ¬ (v ≤ 60) := by linarith
    have n3 : ¬ (v ≤ 90) := by linarith
    simp [sub_index_pm25, PM25_BP, List.find?, bandHas, interp, hlo, hhi, n1, n2, n3]
  · have n1 : ¬ (v ≤ 30) := by linarith
    have n2 : ¬ (v ≤ 60) := by linarith
    have n3 : ¬ (v ≤ 90) := by linarith
    have n4 : ¬ (v ≤ 120) := by linarith
    simp [sub_index_pm25, PM25_BP, List.find?, bandHas, interp, hlo, hhi, n1, n2, n3, n4]
  · have n1 : ¬ (v ≤ 30) := by linarith
    have n2 : ¬ (v ≤ 60) := by linarith
    have n3 : ¬ (v ≤ 90) := by linarith
    have n4 : ¬ (v ≤ 120) := by linarith
    have n5 : ¬ (v ≤ 250) := by linarith
    simp [sub_index_pm25, PM25_BP, List.find?, bandHas, interp, hlo, hhi, n1, n2, n3, n4, n5]

/-- Fall-through case of `sub_index_pm25`: no band contains `v`, so the
last band's line anchored at `Ihi` is used, clamped at `Ihi`. -/
lemma subIndex_fallthrough {v : ℚ}
    (h : ∀ b ∈ PM25_BP, ¬ (b.lo ≤ v ∧ v ≤ b.hi)) :
    sub_index_pm25 (some v)
      = (some (pythonRound (max ((500 - 401) / ((350:ℚ) - 251) * (v - 251) + 500) 500)),
         some "Severe") := by
  have hnone : PM25_BP.find? (bandHas v) = none := by
    rw [List.find?_eq_none]
    intro b hb
    simp only [bandHas_iff]
    exact h b hb
  have hlast : PM25_BP.getLastD ⟨0, 0, 0, 0, "", ""⟩
      = ⟨251, 350, 401, 500, "Severe", "#7E0023"⟩ := rfl
  simp only [sub_index_pm25, hnone, hlast]

lemma idxQ_eq {v : ℚ} {b : Band} (hb : b ∈ PM25_BP)
    (hlo : b.lo ≤ v) (hhi : v ≤ b.hi) :
    idxQ v = pythonRound (interp b v) ∧ catQ v = b.cat := by
  have he := subIndex_in_band hb hlo hhi
  constructor <;> simp [idxQ, catQ, he]

lemma band_data : ∀ b ∈ PM25_BP, b.lo < b.hi ∧ b.ilo ≤ b.ihi ∧
    ∃ il ih : ℤ, b.ilo = (il : ℚ) ∧ b.ihi = (ih : ℚ) ∧ 0 ≤ il ∧ ih ≤ 500 := by
  intro b hb
  simp only [PM25_BP, List.mem_cons, List.not_mem_nil, or_false] at hb
  rcases hb with rfl | rfl | rfl | rfl | rfl | rfl
  · exact ⟨by norm_num, by norm_num, 0, 50, by norm_num, by norm_num, by norm_num, by norm_num⟩
  · exact ⟨by norm_num, by norm_num, 51, 100, by norm_num, by norm_num, by norm_num, by norm_num⟩
  · exact ⟨by norm_num, by norm_num, 101, 200, by norm_num, by norm_num, by norm_num, by norm_num⟩
  · exact ⟨by norm_num, by norm_num, 201, 300, by norm_num, by norm_num, by norm_num, by norm_num⟩
  · exact ⟨by norm_num, by norm_num, 301, 400, by norm_num, by norm_num, by norm_num, by norm_num⟩
  · exact ⟨by norm_num, by norm_num, 401, 500, by norm_num, by norm_num, by norm_num, by norm_num⟩

lemma idxQ_bounds_int {v : ℚ} {b : Band} (hb : b ∈ PM25_BP)
    (hlo : b.lo ≤ v) (hhi : v ≤ b.hi)
    {il ih : ℤ} (hil : b.ilo = (il : ℚ)) (hih : b.ihi = (ih : ℚ)) :
    il ≤ idxQ v ∧ idxQ v ≤ ih := by
  obtain ⟨h0, hI, _⟩ := band_data b hb
  obtain ⟨he, _⟩ := idxQ_eq hb hlo hhi
  have h1 := interp_lower h0 hI hlo
  have h2 := interp_upper h0 hI hhi
  rw [he]
  constructor
  · exact le_pythonRound_of_le (by rw [← hil]; exact h1)
  · exact pythonRound_le_of_le (by rw [← hih]; exact h2)

lemma catQ_in_CATS {v : ℚ} {b : Band} (hb : b ∈ PM25_BP)
    (hlo : b.lo ≤ v) (hhi : v ≤ b.hi) : catQ v ∈ CATS := by
  obtain ⟨_, hc⟩ := idxQ_eq hb hlo hhi
  rw [hc]
  simp only [PM25_BP, List.mem_cons, List.not_mem_nil, or_false] at hb
  rcases hb with rfl | rfl | rfl | rfl | rfl | rfl <;> simp [CATS]

/-- Two bands holding values `v ≤ w` are either the same band, or the
first precedes the second both in index range and in severity rank. -/
lemma band_order {v w : ℚ} {b c : Band} (hb : b ∈ PM25_BP) (hc : c ∈ PM25_BP)
    (hb1 : b.lo ≤ v) (hb2 : v ≤ b.hi) (hc1 : c.lo ≤ w) (hc2 : w ≤ c.hi)
    (hvw : v ≤ w) :
    b = c ∨ (b.ihi ≤ c.ilo ∧ b.ihi < c.ilo + 1 ∧ rank b.cat ≤ rank c.cat) := by
  simp only [PM25_BP, List.mem_cons, List.not_mem_nil, or_false] at hb hc
  rcases hb with rfl | rfl | rfl | rfl | rfl | rfl <;>
    rcases hc with rfl | rfl | rfl | rfl | rfl | rfl <;>
    norm_num at hb1 hb2 hc1 hc2 <;>
    first
      | exact Or.inl rfl
      | (exact Or.inr ⟨by norm_num, by norm_num, by decide⟩)
      | (exfalso; linarith)

/-- The gap value 30.5 = 61/2 lies between the "Good" and "Satisfactory"
bands and inside no band of the table. -/
lemma half31_in_no_band : ∀ b ∈ PM25_BP, ¬ (b.lo ≤ (61/2 : ℚ) ∧ (61/2 : ℚ) ≤ b.hi) := by
  intro b hb
  simp only [PM25_BP, List.mem_cons, List.not_mem_nil, or_false] at hb
  rcases hb with rfl | rfl | rfl | rfl | rfl | rfl <;> norm_num

end Lemmas

section Claims

/-- C1 (amended): for concentrations that lie inclusively within some band of
`PM25_BP` (all of [0, 350] except the non-integer gap points between adjacent
bands), `sub_index_pm25` returns an index in [0, 500] and a category among the
six labels, and both the index and the category's severity rank are
monotonically non-decreasing in the concentration. -/
theorem pm25_index_monotone_on_bands (v w : ℚ) (b c : Band)
    (hb : b ∈ PM25_BP) (hc : c ∈ PM25_BP)
    (hbv1 : b.lo ≤ v) (hbv2 : v ≤ b.hi) (hcw1 : c.lo ≤ w) (hcw2 : w ≤ c.hi)
    (hvw : v ≤ w) :
    (0 ≤ idxQ v ∧ idxQ v ≤ 500 ∧ catQ v ∈ CATS) ∧
    (0 ≤ idxQ w ∧ idxQ w ≤ 500 ∧ catQ w ∈ CATS) ∧
    idxQ v ≤ idxQ w ∧ rank (catQ v) ≤ rank (catQ w) := by
  obtain ⟨hb0, hbI, ilb, ihb, hilb, hihb, hb00, hb500⟩ := band_data b hb
  obtain ⟨hc0, hcI, ilc, ihc, hilc, hihc, hc00, hc500⟩ := band_data c hc
  obtain ⟨hbl, hbu⟩ := idxQ_bounds_int hb hbv1 hbv2 hilb hihb
  obtain ⟨hcl, hcu⟩ := idxQ_bounds_int hc hcw1 hcw2 hilc hihc
  have hcatv := catQ_in_CATS hb hbv1 hbv2
  have hcatw := catQ_in_CATS hc hcw1 hcw2
  obtain ⟨hev, hcv⟩ := idxQ_eq hb hbv1 hbv2
  obtain ⟨hew, hcw'⟩ := idxQ_eq hc hcw1 hcw2
  refine ⟨⟨by omega, by omega, hcatv⟩, ⟨by omega, by omega, hcatw⟩, ?_, ?_⟩
  · rcases band_order hb hc hbv1 hbv2 hcw1 hcw2 hvw with rfl | ⟨hio, _, _⟩
    · rw [hev, hew]
      exact pythonRound_mono (interp_mono hb0 hbI hvw)
    · have hq : (ihb : ℚ) ≤ (ilc : ℚ) := by rw [← hihb, ← hilc]; exact hio
      have h2 : ihb ≤ ilc := by exact_mod_cast hq
      omega
  · rcases band_order hb hc hbv1 hbv2 hcw1 hcw2 hvw with rfl | ⟨_, _, hr⟩
    · rw [hcv, hcw']
    · rw [hcv, hcw']
      exact hr

/-- C1 witness: the amended monotonicity theorem applied at the concrete
pair 0 ≤ 350, held by the first and last bands. -/
theorem pm25_index_monotone_on_bands_witness :
    (0 ≤ idxQ 0 ∧ idxQ 0 ≤ 500 ∧ catQ 0 ∈ CATS) ∧
    (0 ≤ idxQ 350 ∧ idxQ 350 ≤ 500 ∧ catQ 350 ∈ CATS) ∧
    idxQ 0 ≤ idxQ 350 ∧ rank (catQ 0) ≤ rank (catQ 350) :=
  pm25_index_monotone_on_bands 0 350
    ⟨0, 30, 0, 50, "Good", "#009865"⟩ ⟨251, 350, 401, 500, "Severe", "#7E0023"⟩
    (by simp [PM25_BP]) (by simp [PM25_BP])
    (by norm_num) (by norm_num) (by norm_num) (by norm_num) (by norm_num)

/-- C1 counterexample: the claim fails over all real concentrations in
[0, 350]: the gap value 30.5 classifies as (500, "Severe") while the larger
concentration 31 classifies as (51, "Satisfactory"), so neither the index nor
the severity rank is monotone. -/
theorem pm25_monotone_gap_cex :
    (0 : ℚ) ≤ 61/2 ∧ (61/2 : ℚ) ≤ 350 ∧ (0 : ℚ) ≤ 31 ∧ (31 : ℚ) ≤ 350 ∧
    (61/2 : ℚ) ≤ 31 ∧
    sub_index_pm25 (some (61/2)) = (some 500, some "Severe") ∧
    sub_index_pm25 (some 31) = (some 51, some "Satisfactory") ∧
    ¬ idxQ (61/2) ≤ idxQ 31 ∧ ¬ rank (catQ (61/2)) ≤ rank (catQ 31) := by
  have h1 : sub_index_pm25 (some (61/2)) = (some 500, some "Severe") := by
    norm_num [sub_index_pm25, PM25_BP, bandHas, pythonRound, List.find?, List.getLastD]
  have h2 : sub_index_pm25 (some 31) = (some 51, some "Satisfactory") := by
    norm_num [sub_index_pm25, PM25_BP, bandHas, pythonRound, List.find?]
  refine ⟨by norm_num, by norm_num, by norm_num, by norm_num, by norm_num, h1, h2, ?_, ?_⟩
  · simp [idxQ, h1, h2]
  · simp only [catQ, h1, h2, Option.getD_some]
    decide

/-- C2 (amended): the six bands are non-overlapping and monotonically
increasing, every integer concentration in [0, 350] lies in some band, each
adjacent pair of bands satisfies `next.lo = prev.hi + 1` (contiguity over the
integers; a unit-width real gap separates adjacent bands), and the table
order equals the severity order of the category labels. -/
theorem pm25_bp_table_invariants :
    (∀ v : ℚ, ∀ b ∈ PM25_BP, ∀ c ∈ PM25_BP,
        b.lo ≤ v → v ≤ b.hi → c.lo ≤ v → v ≤ c.hi → b = c) ∧
    (∀ n : ℕ, n ≤ 350 → ∃ b ∈ PM25_BP, b.lo ≤ (n : ℚ) ∧ (n : ℚ) ≤ b.hi) ∧
    List.Chain' (fun b c => c.lo = b.hi + 1) PM25_BP ∧
    (∀ b ∈ PM25_BP, b.lo < b.hi) ∧
    PM25_BP.map Band.cat = CATS := by
  refine ⟨?_, ?_, ?_, ?_, rfl⟩
  · intro v b hb c hc hb1 hb2 hc1 hc2
    simp only [PM25_BP, List.mem_cons, List.not_mem_nil, or_false] at hb hc
    rcases hb with rfl | rfl | rfl | rfl | rfl | rfl <;>
      rcases hc with rfl | rfl | rfl | rfl | rfl | rfl <;>
      norm_num at hb1 hb2 hc1 hc2 <;>
      first
        | rfl
        | (exfalso; linarith)
  · intro n hn
    by_cases h1 : n ≤ 30
    · refine ⟨⟨0, 30, 0, 50, "Good", "#009865"⟩, by simp [PM25_BP], ?_, ?_⟩
      · show (0 : ℚ) ≤ (n : ℚ)
        positivity
      · show (n : ℚ) ≤ (30 : ℚ)
        exact_mod_cast h1
    by_cases h2 : n ≤ 60
    · refine ⟨⟨31, 60, 51, 100, "Satisfactory", "#98CE00"⟩, by simp [PM25_BP], ?_, ?_⟩
      · show (31 : ℚ) ≤ (n : ℚ)
        exact_mod_cast (by omega : 31 ≤ n)
      · show (n : ℚ) ≤ (60 : ℚ)
        exact_mod_cast h2
    by_cases h3 : n ≤ 90
    · refine ⟨⟨61, 90, 101, 200, "Moderately Polluted", "#FFFF00"⟩, by simp [PM25_BP], ?_, ?_⟩
      · show (61 : ℚ) ≤ (n : ℚ)
        exact_mod_cast (by omega : 61 ≤ n)
      · show (n : ℚ) ≤ (90 : ℚ)
        exact_mod_cast h3
    by_cases h4 : n ≤ 120
    · refine ⟨⟨91, 120, 201, 300, "Poor", "#FF7E00"⟩, by simp [PM25_BP], ?_, ?_⟩
      · show (91 : ℚ) ≤ (n : ℚ)
        exact_mod_cast (by omega : 91 ≤ n)
      · show (n : ℚ) ≤ (120 : ℚ)
        exact_mod_cast h4
    by_cases h5 : n ≤ 250
    · refine ⟨⟨121, 250, 301, 400, "Very Poor", "#FF0000"⟩, by simp [PM25_BP], ?_, ?_⟩
      · show (121 : ℚ) ≤ (n : ℚ)
        exact_mod_cast (by omega : 121 ≤ n)
      · show (n : ℚ) ≤ (250 : ℚ)
        exact_mod_cast h5
    · refine ⟨⟨251, 350, 401, 500, "Severe", "#7E0023"⟩, by simp [PM25_BP], ?_, ?_⟩
      · show (251 : ℚ) ≤ (n : ℚ)
        exact_mod_cast (by omega : 251 ≤ n)
      · show (n : ℚ) ≤ (350 : ℚ)
        exact_mod_cast hn
  · simp only [PM25_BP, List.chain'_cons, List.chain'_singleton, and_true]
    norm_num
  · intro b hb
    simp only [PM25_BP, List.mem_cons, List.not_mem_nil, or_false] at hb
    rcases hb with rfl | rfl | rfl | rfl | rfl | rfl <;> norm_num

/-- C2 witness: integer coverage applied at the concrete concentration 45. -/
theorem pm25_bp_table_invariants_witness :
    ∃ b ∈ PM25_BP, b.lo ≤ ((45 : ℕ) : ℚ) ∧ ((45 : ℕ) : ℚ) ≤ b.hi :=
  pm25_bp_table_invariants.2.1 45 (by norm_num)

/-- C2 counterexample: contiguity fails over the reals: the concentration
30.5 lies in [0, 350] and inclusively inside no band of the table. -/
theorem pm25_bp_gap_cex :
    (0 : ℚ) ≤ 61/2 ∧ (61/2 : ℚ) ≤ 350 ∧
    ∀ b ∈ PM25_BP, ¬ (b.lo ≤ (61/2 : ℚ) ∧ (61/2 : ℚ) ≤ b.hi) :=
  ⟨by norm_num, by norm_num, half31_in_no_band⟩

/-- C3: for a concentration lying inclusively within a band of the table,
`sub_index_pm25` uses that band (the first and only match of the scan) and
returns `round((index_high - index_low) / (high - low) * (v - low) + index_low)`
paired with that band's category label. -/
theorem pm25_in_band_formula (v : ℚ) (b : Band) (hb : b ∈ PM25_BP)
    (hlo : b.lo ≤ v) (hhi : v ≤ b.hi) :
    sub_index_pm25 (some v)
      = (some (pythonRound ((b.ihi - b.ilo) / (b.hi - b.lo) * (v - b.lo) + b.ilo)),
         some b.cat) :=
  subIndex_in_band hb hlo hhi

/-- C3 witness: the in-band formula applied at the concrete concentration 45
in the "Satisfactory" band, with the interpolation evaluated. -/
theorem pm25_in_band_formula_witness :
    sub_index_pm25 (some 45)
      = (some (pythonRound ((100 - 51) / ((60 : ℚ) - 31) * (45 - 31) + 51)),
         some "Satisfactory") ∧
    sub_index_pm25 (some 45) = (some 75, some "Satisfactory") := by
  have h := pm25_in_band_formula 45 ⟨31, 60, 51, 100, "Satisfactory", "#98CE00"⟩
    (by simp [PM25_BP]) (by norm_num) (by norm_num)
  refine ⟨h, ?_⟩
  rw [h]
  norm_num [pythonRound]

/-- C4: for a concentration above the top band's upper bound 350, the
classifier extrapolates with the last band's slope anchored at its
`index_high` 500, clamps at 500, and reports category "Severe"; the reported
index is always at least 500. -/
theorem pm25_extrapolation_above_top (v : ℚ) (hv : 350 < v) :
    sub_index_pm25 (some v)
      = (some (pythonRound (max ((500 - 401) / ((350 : ℚ) - 251) * (v - 251) + 500) 500)),
         some "Severe") ∧
    500 ≤ pythonRound (max ((500 - 401) / ((350 : ℚ) - 251) * (v - 251) + 500) 500) := by
  have hno : ∀ b ∈ PM25_BP, ¬ (b.lo ≤ v ∧ v ≤ b.hi) := by
    intro b hb
    simp only [PM25_BP, List.mem_cons, List.not_mem_nil, or_false] at hb
    rcases hb with rfl | rfl | rfl | rfl | rfl | rfl <;>
      rintro ⟨ha, hb2⟩ <;> norm_num at ha hb2 <;> linarith
  refine ⟨subIndex_fallthrough hno, ?_⟩
  have h5 : ((500 : ℤ) : ℚ) ≤ max ((500 - 401) / ((350 : ℚ) - 251) * (v - 251) + 500) 500 := by
    push_cast
    exact le_max_right _ _
  exact le_pythonRound_of_le h5

/-- C4 witness: extrapolation applied at the concrete concentration 400,
giving index 649 ≥ 500 and category "Severe". -/
theorem pm25_extrapolation_above_top_witness :
    (350 : ℚ) < 400 ∧
    sub_index_pm25 (some 400) = (some 649, some "Severe") ∧
    (500 : ℤ) ≤ 649 := by
  have h := pm25_extrapolation_above_top 400 (by norm_num)
  refine ⟨by norm_num, ?_, by norm_num⟩
  rw [h.1]
  norm_num [pythonRound, max_def]

/-- C5: a concentration contained in no band and not above 350 (every
negative value and every gap value such as 30.5) falls through to the last
band's clamped branch and yields exactly index 500 and category "Severe". -/
theorem pm25_gap_fallthrough (v : ℚ)
    (h : ∀ b ∈ PM25_BP, ¬ (b.lo ≤ v ∧ v ≤ b.hi)) (hv : v ≤ 350) :
    sub_index_pm25 (some v) = (some 500, some "Severe") := by
  have h251 : v < 251 := by
    by_contra hc
    push_neg at hc
    exact h ⟨251, 350, 401, 500, "Severe", "#7E0023"⟩ (by simp [PM25_BP]) ⟨hc, hv⟩
  rw [subIndex_fallthrough h]
  have hone : (500 - 401) / ((350 : ℚ) - 251) = 1 := by norm_num
  have hI : (500 - 401) / ((350 : ℚ) - 251) * (v - 251) + 500 ≤ 500 := by
    rw [hone]
    linarith
  rw [max_eq_right hI]
  have : pythonRound ((500 : ℚ)) = 500 := by
    have := pythonRound_intCast 500
    push_cast at this
    exact this
  rw [this]

/-- C5 witness: the fall-through case applied at the concrete gap value
30.5 = 61/2, which no band contains. -/
theorem pm25_gap_fallthrough_witness :
    (61/2 : ℚ) ≤ 350 ∧ sub_index_pm25 (some (61/2)) = (some 500, some "Severe") :=
  ⟨by norm_num, pm25_gap_fallthrough (61/2) half31_in_no_band (by norm_num)⟩

/-- C6: classifying an absent concentration returns absent outputs and is
never an error: `sub_index_pm25 None = (None, None)`. -/
theorem pm25_none_gives_none : sub_index_pm25 none = (none, none) := rfl

end Claims

/-!
Embedding of the `/exposure` aggregator (`exposure` in `backend/main.py`).

A stored row is modeled as a `(timestamp, category)` pair: the timestamp in
seconds (pandas timestamps and `Timedelta`s with `total_seconds`, modeled as
`ℚ`), the category as `Option String` (the `pm25_category` column is
nullable).  The `window` string argument is modeled by the duration in
seconds it parses to; the echoed `window` field of the Python response model
carries no information and is omitted.  Site filtering happens in the SQL
query before the rows reach this code, so `rows` is the post-filter list.
-/

/-- One fetched row: `(ts, pm25_category)`. -/
abbrev Reading := ℚ × Option String

/-- The response model `ExposureOut` (minute counts per category). -/
structure ExposureOut where
  good : ℤ
  satisfactory : ℤ
  moderate : ℤ
  poor : ℤ
  very_poor : ℤ
  severe : ℤ
deriving DecidableEq, Repr

/-- The all-zero exposure result. -/
def zeroExposure : ExposureOut := ⟨0, 0, 0, 0, 0, 0⟩

/-- Maximum stored timestamp, `df["ts"].max()`, on a non-empty frame (0 for the empty frame, which the
code never reaches). -/
def maxTs : List Reading → ℚ
  | [] => 0
  | [r] => r.1
  | r :: s :: t => max r.1 (maxTs (s :: t))

/-- The window filter `df[df["ts"] >= now - delta]` with `now` the maximum
stored timestamp. -/
def keptRows (delta : ℚ) (rows : List Reading) : List Reading :=
  rows.filter fun r => decide (maxTs rows - delta ≤ r.1)

/-- Insertion step of sorting by timestamp. -/
def insertByTs (x : Reading) : List Reading → List Reading
  | [] => [x]
  | y :: ys => if x.1 ≤ y.1 then x :: y :: ys else y :: insertByTs x ys

/-- Sort ascending by timestamp, `df.sort_values("ts")` (timestamps are
unique in the store, so any comparison sort computes this list). -/
def sortByTs (l : List Reading) : List Reading :=
  l.foldr insertByTs []

/-- Elapsed-seconds assignment
`df["dt"] = df["ts"].diff().dt.total_seconds().fillna(60)`: pair each
row's category with the elapsed seconds since the previous row, the first
row getting the fill value 60. -/
def withDts : List Reading → List (Option String × ℚ)
  | [] => []
  | x :: xs => (x.2, 60) :: List.zipWith (fun p c => (c.2, c.1 - p.1)) (x :: xs) xs

/-- Minute count reported for one category, `int(round(minutes.get(cat, 0)))`
where `minutes = df.groupby("cat")["dt"].sum() / 60.0`; null categories are
excluded by the groupby and match no label. -/
def catMinutes (l : List (Option String × ℚ)) (c : String) : ℤ :=
  pythonRound (((l.filter fun p => decide (p.1 = some c)).map Prod.snd).sum / 60)

/-- Translation of `exposure` from `backend/main.py`, after the SQL fetch: zero-filled
result for an empty fetch or an empty window, otherwise the per-category
rounded minute totals over the retained, time-sorted rows. -/
def exposure (delta : ℚ) (rows : List Reading) : ExposureOut :=
  if rows = [] then zeroExposure
  else
    let kept := keptRows delta rows
    if kept = [] then zeroExposure
    else
      let dts := withDts (sortByTs kept)
      { good := catMinutes dts "Good"
        satisfactory := catMinutes dts "Satisfactory"
        moderate := catMinutes dts "Moderately Polluted"
        poor := catMinutes dts "Poor"
        very_poor := catMinutes dts "Very Poor"
        severe := catMinutes dts "Severe" }

section ExposureLemmas

lemma le_maxTs : ∀ (l : List Reading), ∀ x ∈ l, x.1 ≤ maxTs l
  | [], x, hx => absurd hx (List.not_mem_nil x)
  | [r], x, hx => by
      simp only [List.mem_singleton] at hx
      subst hx
      simp [maxTs]
  | r :: s :: t, x, hx => by
      rcases List.mem_cons.mp hx with rfl | hx'
      · simp [maxTs]
      · have h := le_maxTs (s :: t) x hx'
        calc x.1 ≤ maxTs (s :: t) := h
          _ ≤ maxTs (r :: s :: t) := by simp [maxTs]

lemma maxTs_mem : ∀ (l : List Reading), l ≠ [] → ∃ x ∈ l, x.1 = maxTs l
  | [], h => absurd rfl h
  | [r], _ => ⟨r, by simp, by simp [maxTs]⟩
  | r :: s :: t, _ => by
      obtain ⟨x, hx, hmax⟩ := maxTs_mem (s :: t) (by simp)
      rcases le_total r.1 (maxTs (s :: t)) with h | h
      · exact ⟨x, List.mem_cons_of_mem r hx, by simp [maxTs, max_eq_right h, hmax]⟩
      · exact ⟨r, List.mem_cons_self r _, by simp [maxTs, max_eq_left h]⟩

lemma mem_keptRows_iff {delta : ℚ} {x : Reading} {rows : List Reading} :
    x ∈ keptRows delta rows ↔ x ∈ rows ∧ maxTs rows - delta ≤ x.1 := by
  simp [keptRows]

lemma maxTs_keptRows {delta : ℚ} {rows : List Reading}
    (hd : 0 ≤ delta) (hne : rows ≠ []) :
    maxTs (keptRows delta rows) = maxTs rows ∧ keptRows delta rows ≠ [] := by
  obtain ⟨x0, hx0, hmax⟩ := maxTs_mem rows hne
  have hx0k : x0 ∈ keptRows delta rows :=
    mem_keptRows_iff.mpr ⟨hx0, by rw [hmax]; linarith⟩
  have hkne : keptRows delta rows ≠ [] := List.ne_nil_of_mem hx0k
  refine ⟨le_antisymm ?_ ?_, hkne⟩
  · obtain ⟨y, hy, hym⟩ := maxTs_mem _ hkne
    rw [← hym]
    exact le_maxTs rows y (mem_keptRows_iff.mp hy).1
  · rw [← hmax]
    exact le_maxTs _ x0 hx0k

end ExposureLemmas

section ExposureClaims

/-- C7: the aggregator never fails on empty or missing input: if no rows were
fetched, or no rows survive the window filter, the result is the well-formed
all-zero record (being a total function, the embedding raises nothing). -/
theorem exposure_empty_zero (delta : ℚ) (rows : List Reading)
    (h : rows = [] ∨ keptRows delta rows = []) :
    exposure delta rows = zeroExposure := by
  rcases h with rfl | hk
  · rfl
  · simp [exposure, hk]

/-- C7 witness: the empty fetch with a 24-hour window. -/
theorem exposure_empty_zero_witness : exposure 86400 [] = zeroExposure :=
  exposure_empty_zero 86400 [] (Or.inl rfl)

/-- C8: "now" is the maximum stored timestamp, not wall-clock time, and rows
older than `now - delta` contribute nothing: the result over all rows equals
the result over exactly the rows with timestamp ≥ `maxTs rows - delta`. -/
theorem exposure_uses_max_ts_window (delta : ℚ) (rows : List Reading)
    (hd : 0 ≤ delta) (hne : rows ≠ []) :
    exposure delta rows
      = exposure delta (rows.filter fun r => decide (maxTs rows - delta ≤ r.1)) := by
  obtain ⟨hm, hkne⟩ := maxTs_keptRows hd hne
  have hidem : keptRows delta (keptRows delta rows) = keptRows delta rows := by
    apply List.filter_eq_self.mpr
    intro x hx
    rw [hm]
    exact decide_eq_true (mem_keptRows_iff.mp hx).2
  show exposure delta rows = exposure delta (keptRows delta rows)
  unfold exposure
  rw [hidem]
  split_ifs <;>
    first
      | rfl
      | (exact absurd ‹rows = []› hne)
      | (exact absurd ‹keptRows delta rows = []› hkne)

/-- C8 witness: with a one-hour window, the reading 100000 s after the old
reading at 0 s is the implicit "now"; the old reading is dropped and only
the "Poor" minute remains. -/
theorem exposure_uses_max_ts_window_witness :
    exposure 3600 [((0 : ℚ), some "Good"), ((100000 : ℚ), some "Poor")]
      = exposure 3600
          ([((0 : ℚ), some "Good"), ((100000 : ℚ), some "Poor")].filter
            fun r => decide (maxTs [((0 : ℚ), some "Good"), ((100000 : ℚ), some "Poor")] - 3600 ≤ r.1)) ∧
    exposure 3600 [((0 : ℚ), some "Good"), ((100000 : ℚ), some "Poor")]
      = ⟨0, 0, 0, 1, 0, 0⟩ := by
  have h := exposure_uses_max_ts_window 3600
    [((0 : ℚ), some "Good"), ((100000 : ℚ), some "Poor")] (by norm_num) (by simp)
  refine ⟨h, ?_⟩
  have s1 : ("Poor" : String) ≠ "Good" := by simp
  have s2 : ("Poor" : String) ≠ "Satisfactory" := by simp
  have s3 : ("Poor" : String) ≠ "Moderately Polluted" := by simp
  have s4 : ("Poor" : String) ≠ "Very Poor" := by simp
  have s5 : ("Poor" : String) ≠ "Severe" := by simp
  have s6 : ("Good" : String) ≠ "Poor" := by simp
  norm_num [exposure, keptRows, maxTs, max_def, sortByTs, insertByTs, withDts,
    catMinutes, pythonRound, zeroExposure, List.filter_cons, List.zipWith,
    s1, s2, s3, s4, s5, s6]
  simp

/-- C9: the aggregator sorts the retained rows by timestamp, assigns the
first row 60 elapsed seconds and every later row its distance to the
previous row, and reports round(sum/60) per category: ten "Good" readings at
minute marks 0..9 (given out of order) yield good = 10 and zero elsewhere;
two "Good" readings 90 s apart yield 150 s = 2.5 min, rounded to 2. -/
theorem exposure_minutes_example :
    exposure 86400
        [((120 : ℚ), some "Good"), ((540 : ℚ), some "Good"), ((0 : ℚ), some "Good"),
         ((300 : ℚ), some "Good"), ((60 : ℚ), some "Good"), ((480 : ℚ), some "Good"),
         ((180 : ℚ), some "Good"), ((420 : ℚ), some "Good"), ((240 : ℚ), some "Good"),
         ((360 : ℚ), some "Good")]
      = ⟨10, 0, 0, 0, 0, 0⟩ ∧
    exposure 86400 [((0 : ℚ), some "Good"), ((90 : ℚ), some "Good")]
      = ⟨2, 0, 0, 0, 0, 0⟩ := by
  have s1 : ("Good" : String) ≠ "Satisfactory" := by simp
  have s2 : ("Good" : String) ≠ "Moderately Polluted" := by simp
  have s3 : ("Good" : String) ≠ "Poor" := by simp
  have s4 : ("Good" : String) ≠ "Very Poor" := by simp
  have s5 : ("Good" : String) ≠ "Severe" := by simp
  constructor <;>
    · norm_num [exposure, keptRows, maxTs, max_def, sortByTs, insertByTs, withDts,
        catMinutes, pythonRound, zeroExposure, List.filter_cons, List.zipWith,
        s1, s2, s3, s4, s5]
      simp

end ExposureClaims

section AlertClaims

/-- One row of the `events` table as written by the alert branch of
`insert_reading`: the severity column and the two values
(category and raw concentration) interpolated into the human-readable
message f-string. -/
structure EventRec where
  severity : String
  msgCategory : String
  msgValue : ℚ
deriving DecidableEq, Repr

/-- The alert side effect of `insert_reading` in `backend/main.py`: classify
the reading's pm25 (absent pm25 classifies to absent), and append one event
iff the category is "Poor", "Very Poor" or "Severe", with severity "warning"
for "Poor" and "critical" otherwise. -/
def alertEvents (pm25 : Option ℚ) : List EventRec :=
  match pm25 with
  | none => []
  | some p =>
    match (sub_index_pm25 (some p)).2 with
    | none => []
    | some c =>
      if c = "Poor" ∨ c = "Very Poor" ∨ c = "Severe" then
        [⟨if c = "Poor" then "warning" else "critical", c, p⟩]
      else []

/-- C10: ingesting a reading appends exactly one alert when its computed
category is "Poor" ("warning"), "Very Poor" or "Severe" ("critical"), the
alert message embedding the category and the raw value, and appends no
alert for the three mild categories or an absent concentration. -/
theorem ingest_alert_rule :
    alertEvents none = [] ∧
    ∀ (p : ℚ) (c : String), (sub_index_pm25 (some p)).2 = some c →
      (c = "Poor" → alertEvents (some p) = [⟨"warning", c, p⟩]) ∧
      ((c = "Very Poor" ∨ c = "Severe") → alertEvents (some p) = [⟨"critical", c, p⟩]) ∧
      (¬ (c = "Poor" ∨ c = "Very Poor" ∨ c = "Severe") → alertEvents (some p) = []) := by
  refine ⟨rfl, ?_⟩
  intro p c hc
  refine ⟨?_, ?_, ?_⟩
  · rintro rfl
    simp [alertEvents, hc]
  · rintro (rfl | rfl) <;> simp [alertEvents, hc]
  · intro hn
    simp [alertEvents, hc, hn]

/-- C10 witness: pm25 = 100 classifies as "Poor" and appends exactly the
"warning" alert carrying the category and the raw value. -/
theorem ingest_alert_rule_witness :
    (sub_index_pm25 (some 100)).2 = some "Poor" ∧
    alertEvents (some 100) = [⟨"warning", "Poor", 100⟩] := by
  have hc : (sub_index_pm25 (some 100)).2 = some "Poor" := by
    norm_num [sub_index_pm25, PM25_BP, bandHas, List.find?]
  exact ⟨hc, (ingest_alert_rule.2 100 "Poor" hc).1 rfl⟩

end AlertClaims

end IAQ
